import Mathlib

/-!
Verification of the lavacore multi-node session-forwarding subsystem.

We shallowly embed the TypeScript sources:
  * `src/utils/http.ts` — `ExponentialBackoff`, `withBackoff`, `HttpClient.request`;
  * `src/manager/VoiceForwarder.ts` — the voice-credential forwarder;
  * the `FilterBuilder.equalizer` method.
Numbers are modelled as rationals (JS `number` arithmetic on the values the
claims exercise is exact), JS `undefined`/`null` as `Option`, JS truthiness of
strings as "not the empty string", exceptions as `Except`, and side effects
(player calls, event emission) as an ordered list of effects.
-/

namespace Lavacore

/-! ## Backoff (src/utils/http.ts, `ExponentialBackoff`) -/

/-- Embeds the `BackoffOptions` interface: base delay, maximum delay,
maximum attempt count (`0` = unbounded) and jitter fraction. -/
structure BackoffOptions where
  baseDelay : ℚ
  maxDelay : ℚ
  maxAttempts : ℕ
  jitter : ℚ
deriving Repr, DecidableEq

/-- Embeds the mutable state of an `ExponentialBackoff` object: the internal
attempt counter plus the (immutable) options. -/
structure ExponentialBackoff where
  attempt : ℕ
  options : BackoffOptions
deriving Repr, DecidableEq

/-- Embeds `ExponentialBackoff.next()`.  `rand` is the sample returned by
`Math.random()` (a value in `[0,1)`).  Returns the floored delay and the
successor state, or an error when the attempt bound is exhausted. -/
def ExponentialBackoff.next (b : ExponentialBackoff) (rand : ℚ) :
    Except String (ℤ × ExponentialBackoff) :=
  if b.options.maxAttempts > 0 ∧ b.attempt ≥ b.options.maxAttempts then
    .error "Maximum reconnection attempts reached"
  else
    let exponentialDelay := b.options.baseDelay * 2 ^ b.attempt
    let cappedDelay := min exponentialDelay b.options.maxDelay
    let jitterRange := cappedDelay * b.options.jitter
    let jitterValue := rand * jitterRange * 2 - jitterRange
    let finalDelay := max 0 (cappedDelay + jitterValue)
    .ok (⌊finalDelay⌋, { b with attempt := b.attempt + 1 })

/-- Embeds `ExponentialBackoff.getAttempt()`. -/
def ExponentialBackoff.getAttempt (b : ExponentialBackoff) : ℕ := b.attempt

/-- Embeds `ExponentialBackoff.reset()`. -/
def ExponentialBackoff.reset (b : ExponentialBackoff) : ExponentialBackoff :=
  { b with attempt := 0 }

/-- Embeds `ExponentialBackoff.hasReachedMaxAttempts()`. -/
def ExponentialBackoff.hasReachedMaxAttempts (b : ExponentialBackoff) : Bool :=
  b.options.maxAttempts > 0 ∧ b.attempt ≥ b.options.maxAttempts

/-- Runs `next()` once per entry of `rands`, propagating the first error. -/
def nextRuns : ExponentialBackoff → List ℚ → Except String ExponentialBackoff
  | b, [] => .ok b
  | b, r :: rs =>
    match b.next r with
    | .error e => .error e
    | .ok (_, b') => nextRuns b' rs

/-- `next()` succeeds below the attempt bound and the successor state only
bumps the counter. -/
theorem nextRuns_ok (rs : List ℚ) (b : ExponentialBackoff)
    (h : b.options.maxAttempts = 0 ∨ b.attempt + rs.length ≤ b.options.maxAttempts) :
    nextRuns b rs = .ok ⟨b.attempt + rs.length, b.options⟩ := by
  induction rs generalizing b with
  | nil =>
    cases b
    simp [nextRuns]
  | cons r rs ih =>
    have hguard : ¬ (b.options.maxAttempts > 0 ∧ b.attempt ≥ b.options.maxAttempts) := by
      rcases h with h | h
      · omega
      · simp only [List.length_cons] at h
        omega
    have hstep : b.next r =
        .ok (⌊max 0 (min (b.options.baseDelay * 2 ^ b.attempt) b.options.maxDelay +
            (r * (min (b.options.baseDelay * 2 ^ b.attempt) b.options.maxDelay *
              b.options.jitter) * 2 -
             min (b.options.baseDelay * 2 ^ b.attempt) b.options.maxDelay *
              b.options.jitter))⌋,
          { b with attempt := b.attempt + 1 }) := by
      simp only [ExponentialBackoff.next, if_neg hguard]
    have hrec := ih { b with attempt := b.attempt + 1 }
      (by show b.options.maxAttempts = 0 ∨ b.attempt + 1 + rs.length ≤ b.options.maxAttempts
          rcases h with h | h
          · exact Or.inl h
          · right
            simp only [List.length_cons] at h
            omega)
    simp only [nextRuns, hstep, hrec]
    have : b.attempt + 1 + rs.length = b.attempt + (r :: rs).length := by
      simp [List.length_cons]
      omega
    rw [this]

/-- Claim C3: when exhaustion has not been signalled (`maxAttempts = 0` or
`attempt < maxAttempts`), `ExponentialBackoff.next` returns the delay
`min (baseDelay * 2 ^ attempt) maxDelay` perturbed by a value `p` with
`|p| ≤ jitter * delay`, floored at zero (and truncated to an integer as
`Math.floor` does); hence `0 ≤ delay ≤ maxDelay * (1 + jitter)`; and the
attempt counter is incremented by one. -/
theorem backoff_next_bounds (b : ExponentialBackoff) (rand : ℚ)
    (hbase : 0 ≤ b.options.baseDelay) (hmax : 0 ≤ b.options.maxDelay)
    (hj0 : 0 ≤ b.options.jitter) (hj1 : b.options.jitter ≤ 1)
    (hr0 : 0 ≤ rand) (hr1 : rand < 1)
    (hnotex : b.options.maxAttempts = 0 ∨ b.attempt < b.options.maxAttempts) :
    ∃ d b', b.next rand = .ok (d, b') ∧
      b'.attempt = b.attempt + 1 ∧
      (∃ p : ℚ,
        |p| ≤ b.options.jitter *
          min (b.options.baseDelay * 2 ^ b.attempt) b.options.maxDelay ∧
        d = ⌊max 0 (min (b.options.baseDelay * 2 ^ b.attempt) b.options.maxDelay + p)⌋) ∧
      0 ≤ d ∧ (d : ℚ) ≤ b.options.maxDelay * (1 + b.options.jitter) := by
  have hguard : ¬ (b.options.maxAttempts > 0 ∧ b.attempt ≥ b.options.maxAttempts) := by
    rcases hnotex with h | h
    · omega
    · omega
  set capped := min (b.options.baseDelay * 2 ^ b.attempt) b.options.maxDelay with hc
  have hcap0 : 0 ≤ capped := le_min (by positivity) hmax
  have hcapmax : capped ≤ b.options.maxDelay := min_le_right _ _
  set p := rand * (capped * b.options.jitter) * 2 - capped * b.options.jitter with hp
  have hnext : b.next rand =
      .ok (⌊max 0 (capped + p)⌋, { b with attempt := b.attempt + 1 }) := by
    simp only [ExponentialBackoff.next, if_neg hguard]
  have habs : |p| ≤ b.options.jitter * capped := by
    have hrw : p = (capped * b.options.jitter) * (2 * rand - 1) := by
      rw [hp]; ring
    rw [hrw, abs_mul, abs_of_nonneg (mul_nonneg hcap0 hj0)]
    have h1 : |2 * rand - 1| ≤ 1 := abs_le.mpr ⟨by linarith, by linarith⟩
    calc capped * b.options.jitter * |2 * rand - 1|
        ≤ capped * b.options.jitter * 1 :=
          mul_le_mul_of_nonneg_left h1 (mul_nonneg hcap0 hj0)
      _ = b.options.jitter * capped := by ring
  have hple : p ≤ b.options.jitter * capped := le_trans (le_abs_self p) habs
  have hbound : max 0 (capped + p) ≤ b.options.maxDelay * (1 + b.options.jitter) := by
    have hjc : b.options.jitter * capped ≤ b.options.jitter * b.options.maxDelay :=
      mul_le_mul_of_nonneg_left hcapmax hj0
    exact max_le (by nlinarith) (by nlinarith)
  refine ⟨_, _, hnext, rfl, ⟨p, habs, rfl⟩, ?_, ?_⟩
  · exact Int.floor_nonneg.mpr (le_max_left 0 _)
  · calc ((⌊max 0 (capped + p)⌋ : ℤ) : ℚ) ≤ max 0 (capped + p) := Int.floor_le _
      _ ≤ b.options.maxDelay * (1 + b.options.jitter) := hbound

/-- Witness for C3: the bounds hold at a concrete backoff state and random
sample. -/
theorem backoff_next_bounds_witness :
    ∃ d b', (ExponentialBackoff.next ⟨3, ⟨1000, 60000, 5, 1/5⟩⟩ (3/4)) = .ok (d, b') ∧
      b'.attempt = 3 + 1 ∧
      (∃ p : ℚ, |p| ≤ (1/5) * min ((1000 : ℚ) * 2 ^ 3) 60000 ∧
        d = ⌊max 0 (min ((1000 : ℚ) * 2 ^ 3) 60000 + p)⌋) ∧
      0 ≤ d ∧ (d : ℚ) ≤ 60000 * (1 + 1/5) :=
  backoff_next_bounds ⟨3, ⟨1000, 60000, 5, 1/5⟩⟩ (3/4)
    (by norm_num) (by norm_num) (by norm_num) (by norm_num)
    (by norm_num) (by norm_num) (Or.inr (by norm_num))

/-- Claim C4: with `maxAttempts = m > 0`, the first `m` calls of `next()`
succeed (the counter reaching `m`), and the `(m+1)`-th call errors with
"Maximum reconnection attempts reached"; with `maxAttempts = 0` any number of
calls succeeds; `reset()` returns the counter to zero, and the state after a
reset is exactly the fresh state with the same options, so subsequent `next()`
calls behave as from attempt `0`. -/
theorem backoff_exhaustion (opts : BackoffOptions) (rs : List ℚ) (b : ExponentialBackoff) :
    (opts.maxAttempts > 0 → rs.length = opts.maxAttempts →
      nextRuns ⟨0, opts⟩ rs = .ok ⟨opts.maxAttempts, opts⟩ ∧
      ∀ r, (ExponentialBackoff.mk opts.maxAttempts opts).next r =
        .error "Maximum reconnection attempts reached") ∧
    (opts.maxAttempts = 0 → nextRuns ⟨0, opts⟩ rs = .ok ⟨rs.length, opts⟩) ∧
    b.reset = ⟨0, b.options⟩ := by
  refine ⟨?_, ?_, ?_⟩
  · intro hm hlen
    constructor
    · have := nextRuns_ok rs ⟨0, opts⟩ (Or.inr (by simp [hlen]))
      simpa [hlen] using this
    · intro r
      have hguard : opts.maxAttempts > 0 ∧
          (ExponentialBackoff.mk opts.maxAttempts opts).attempt ≥ opts.maxAttempts :=
        ⟨hm, le_refl _⟩
      simp only [ExponentialBackoff.next, if_pos hguard]
  · intro hm
    have := nextRuns_ok rs ⟨0, opts⟩ (Or.inl hm)
    simpa using this
  · cases b
    rfl

/-- Witness for C4: a concrete policy with `maxAttempts = 2` succeeds twice,
errors on the third call, and resets to attempt zero. -/
theorem backoff_exhaustion_witness :
    (nextRuns ⟨0, ⟨1, 60, 2, 1/5⟩⟩ [0, 1/2] = .ok ⟨2, ⟨1, 60, 2, 1/5⟩⟩ ∧
      (ExponentialBackoff.mk 2 ⟨1, 60, 2, 1/5⟩).next (1/3) =
        .error "Maximum reconnection attempts reached") ∧
    nextRuns ⟨0, ⟨1, 60, 0, 1/5⟩⟩ [0, 1/2, 1/3] = .ok ⟨3, ⟨1, 60, 0, 1/5⟩⟩ ∧
    ExponentialBackoff.reset ⟨7, ⟨1, 60, 2, 1/5⟩⟩ = ⟨0, ⟨1, 60, 2, 1/5⟩⟩ := by
  have h1 := backoff_exhaustion ⟨1, 60, 2, 1/5⟩ [0, 1/2] ⟨7, ⟨1, 60, 2, 1/5⟩⟩
  have h2 := backoff_exhaustion ⟨1, 60, 0, 1/5⟩ [0, 1/2, 1/3] ⟨7, ⟨1, 60, 0, 1/5⟩⟩
  have ha := h1.1 (by norm_num) (by simp)
  exact ⟨⟨ha.1, ha.2 (1/3)⟩, h2.2.1 rfl, h1.2.2⟩

/-! ## withBackoff (src/utils/http.ts)

`withBackoff` runs `fn` in a `while (!backoff.hasReachedMaxAttempts())` loop.
We embed `fn` as a map from the invocation index to that invocation's outcome
(the delays slept between attempts are irrelevant to the claims, and `next()`
never throws inside the loop because it is reached only when the guard was
false).  The loop is embedded with an explicit fuel parameter, checking the
loop guard before consuming fuel, so fuel `maxAttempts` is exact whenever
`maxAttempts > 0`, which claim C9 assumes (with `maxAttempts = 0` the source
loops until `fn` succeeds).  The second component of the result counts how
many times `fn` was invoked. -/

/-- The `throw lastError ?? new Error(...)` fall-through after the loop. -/
def withBackoffExit (lastError : Option String) : Except String α × ℕ :=
  (match lastError with
   | some e => .error e
   | none => .error "Backoff failed with unknown error", 0)

/-- Embeds the loop of `withBackoff`: `i` is the current value of the backoff's
attempt counter, the `Option String` argument the saved last error.  Returns
the overall result and the number of invocations of `fn`. -/
def withBackoffLoop (fn : ℕ → Except String α) (maxAttempts : ℕ) :
    ℕ → ℕ → Option String → Except String α × ℕ
  | 0, i, lastError =>
    if maxAttempts > 0 ∧ i ≥ maxAttempts then withBackoffExit lastError
    else (.error "loop did not terminate", 0)
  | fuel + 1, i, lastError =>
    if maxAttempts > 0 ∧ i ≥ maxAttempts then withBackoffExit lastError
    else
      match fn i with
      | .ok a => (.ok a, 1)
      | .error e =>
        if maxAttempts > 0 ∧ i ≥ maxAttempts then (.error e, 1)
        else
          let rest := withBackoffLoop fn maxAttempts fuel (i + 1) (some e)
          (rest.1, rest.2 + 1)

/-- Embeds `withBackoff(fn, options)` (only the `maxAttempts` option is
observable through the claims; the fresh backoff state starts at attempt 0). -/
def withBackoff (fn : ℕ → Except String α) (maxAttempts : ℕ) :
    Except String α × ℕ :=
  withBackoffLoop fn maxAttempts maxAttempts 0 none

/-- The loop invokes `fn` at most `fuel` times. -/
theorem withBackoffLoop_count_le (fn : ℕ → Except String α) (m : ℕ) :
    ∀ fuel i le, (withBackoffLoop fn m fuel i le).2 ≤ fuel := by
  intro fuel
  induction fuel with
  | zero =>
    intro i le
    by_cases hg : m > 0 ∧ i ≥ m
    · simp [withBackoffLoop, hg, withBackoffExit]
    · simp [withBackoffLoop, hg]
  | succ fuel ih =>
    intro i le
    by_cases hg : m > 0 ∧ i ≥ m
    · simp [withBackoffLoop, hg, withBackoffExit]
    · cases hfn : fn i with
      | ok a => simp [withBackoffLoop, hg, hfn]
      | error e =>
        have hrec := ih (i + 1) (some e)
        simp only [withBackoffLoop, if_neg hg, hfn]
        omega

/-- If every invocation at indices `i, …, m - 1` fails, the loop returns the
error of invocation `m - 1` (given `i < m` and enough fuel). -/
theorem withBackoffLoop_all_fail (fn : ℕ → Except String α) (m : ℕ) :
    ∀ fuel i le, i < m → m - i ≤ fuel →
      (∀ j, i ≤ j → j < m → (fn j).isOk = false) →
      ∀ e, fn (m - 1) = .error e → (withBackoffLoop fn m fuel i le).1 = .error e := by
  intro fuel
  induction fuel with
  | zero =>
    intro i le hi hfuel hfail e he
    omega
  | succ fuel ih =>
    intro i le hi hfuel hfail e he
    have hguard : ¬ (m > 0 ∧ i ≥ m) := by omega
    cases hfn : fn i with
    | ok a =>
      have := hfail i (le_refl i) hi
      rw [hfn] at this
      simp [Except.isOk, Except.toBool] at this
    | error e' =>
      by_cases hlast : i + 1 < m
      · have hrec := ih (i + 1) (some e') hlast (by omega)
          (fun j hj1 hj2 => hfail j (by omega) hj2) e he
        simp only [withBackoffLoop, if_neg hguard, hfn, hrec]
      · have hieq : i = m - 1 := by omega
        have hstop : m > 0 ∧ i + 1 ≥ m := by omega
        have hee : e' = e := by
          have hfe : (Except.error e' : Except String α) = Except.error e := by
            rw [← hfn, hieq]
            exact he
          simpa using hfe
        subst hee
        cases fuel with
        | zero =>
          simp only [withBackoffLoop, if_neg hguard, hfn, if_pos hstop,
            withBackoffExit]
        | succ fuel =>
          simp only [withBackoffLoop, if_neg hguard, hfn, if_pos hstop,
            withBackoffExit]

/-- If invocation `k` is the first success and `k < m`, the loop returns its
value (given enough fuel). -/
theorem withBackoffLoop_first_success (fn : ℕ → Except String α) (m : ℕ) :
    ∀ fuel i le k a, i ≤ k → k < m → k - i < fuel →
      fn k = .ok a → (∀ j, i ≤ j → j < k → (fn j).isOk = false) →
      (withBackoffLoop fn m fuel i le).1 = .ok a := by
  intro fuel
  induction fuel with
  | zero =>
    intro i le k a hik hkm hfuel hk hfail
    omega
  | succ fuel ih =>
    intro i le k a hik hkm hfuel hk hfail
    have hguard : ¬ (m > 0 ∧ i ≥ m) := by omega
    by_cases hieq : i = k
    · subst hieq
      simp only [withBackoffLoop, if_neg hguard, hk]
    · cases hfn : fn i with
      | ok a' =>
        have := hfail i (le_refl i) (by omega)
        rw [hfn] at this
        simp [Except.isOk, Except.toBool] at this
      | error e' =>
        have hrec := ih (i + 1) (some e') k a (by omega) hkm (by omega) hk
          (fun j hj1 hj2 => hfail j (by omega) hj2)
        simp only [withBackoffLoop, if_neg hguard, hfn, hrec]

/-- Claim C9: for `maxAttempts = m > 0`, `withBackoff` invokes `fn` at most
`m` times; it returns the value of the first successful invocation; and if the
first `m` invocations all fail it throws the error of the last (the `m`-th)
invocation. -/
theorem withBackoff_spec (fn : ℕ → Except String α) (m : ℕ) (hm : 0 < m) :
    (withBackoff fn m).2 ≤ m ∧
    (∀ k a, k < m → fn k = .ok a → (∀ j, j < k → (fn j).isOk = false) →
      (withBackoff fn m).1 = .ok a) ∧
    ((∀ j, j < m → (fn j).isOk = false) →
      ∀ e, fn (m - 1) = .error e → (withBackoff fn m).1 = .error e) := by
  refine ⟨withBackoffLoop_count_le fn m m 0 none, ?_, ?_⟩
  · intro k a hkm hk hfail
    exact withBackoffLoop_first_success fn m m 0 none k a (Nat.zero_le k) hkm
      (by omega) hk (fun j _ hj => hfail j hj)
  · intro hfail e he
    exact withBackoffLoop_all_fail fn m m 0 none hm (by omega)
      (fun j _ hj => hfail j hj) e he

/-- Witness for C9: a function that fails once then succeeds is invoked at
most thrice under `maxAttempts = 3` and its success value is returned; a
function that always fails under `maxAttempts = 2` surfaces the last error. -/
theorem withBackoff_spec_witness :
    ((withBackoff (fun i => if i = 0 then .error "boom" else .ok (37 : ℕ)) 3).2 ≤ 3 ∧
      (withBackoff (fun i => if i = 0 then .error "boom" else .ok (37 : ℕ)) 3).1 =
        .ok 37) ∧
    (withBackoff (fun i => (.error ("fail " ++ toString i) : Except String ℕ)) 2).1 =
      .error "fail 1" := by
  have h1 := withBackoff_spec (fun i => if i = 0 then .error "boom" else .ok (37 : ℕ)) 3
    (by norm_num)
  have h2 := withBackoff_spec (fun i => (.error ("fail " ++ toString i) : Except String ℕ)) 2
    (by norm_num)
  refine ⟨⟨h1.1, ?_⟩, ?_⟩
  · exact h1.2.1 1 37 (by norm_num) (by norm_num) (by decide)
  · exact h2.2.2 (by decide) "fail 1" (by rfl)
/-! ## HttpClient.request (src/utils/http.ts)

`HttpClient.request` awaits `fetch(url, { method, headers, body })` inside a
`try`/`catch`.  We embed the behaviour of the awaited `fetch` call as a
`FetchBehavior`: it may settle with a response, reject with a network error,
or never settle.  The source passes no `AbortSignal`, timeout option or race
to `fetch`, so when the fetch never settles the `await` — and hence the
caller of `request` — never resolves; the embedding records that outcome as
`RequestOutcome.pending`. -/

/-- A settled `fetch` response, restricted to the parts `request` inspects. -/
structure FetchResponse where
  ok : Bool
  status : ℕ
  statusText : String
  bodyText : String
  contentLengthZero : Bool
deriving Repr, DecidableEq

/-- Behaviour of the awaited `fetch(url, …)` call. -/
inductive FetchBehavior where
  | settles (resp : FetchResponse)
  | rejects (msg : String)
  | neverSettles
deriving Repr, DecidableEq

/-- Outcome observed by the caller of `request`.  `pending` means the returned
promise never settles: the caller keeps waiting. -/
inductive RequestOutcome where
  | ok (bodyText : String)
  | error (msg : String)
  | pending
deriving Repr, DecidableEq

/-- Embeds `HttpClient.request` (the URL and header assembly do not affect the
claims; the parsed JSON value is represented by the raw body text).  There is
no branch producing a timeout: the only outcomes are the fetch result, a
wrapped error, or waiting forever. -/
def HttpClient.request (fetch : FetchBehavior) : RequestOutcome :=
  match fetch with
  | .neverSettles => .pending
  | .rejects msg => .error ("Request failed: " ++ msg)
  | .settles resp =>
    if !resp.ok then
      .error ("Request failed: " ++
        ("HTTP " ++ toString resp.status ++ ": " ++ resp.statusText ++ " - " ++
          resp.bodyText))
    else if resp.status = 204 ∨ resp.contentLengthZero then
      .ok ""
    else
      .ok resp.bodyText

/-- Claim C7 (code bug): a REST send whose underlying `fetch` never settles
leaves the caller pending forever.  `HttpClient.request` passes no
`AbortSignal` or timeout to `fetch` and has no timeout branch, so instead of
the timeout error the claim requires, the caller observes no outcome at all. -/
theorem request_no_timeout :
    HttpClient.request FetchBehavior.neverSettles = RequestOutcome.pending ∧
    ∀ m, RequestOutcome.pending ≠ RequestOutcome.error m := by
  exact ⟨rfl, fun m h => RequestOutcome.noConfusion h⟩

/-! ## FilterBuilder.equalizer (src/FilterBuilder.ts)

`FilterBuilder` keeps a private `filters: FilterOptions` object; `equalizer`
first validates every band in a loop and only then assigns
`this.filters.equalizer = bands`.  Gains and band indices are JS numbers,
modelled as rationals.  The payload types of the other filter fields come
from the `types/lavalink` declarations, which are not under `src/`; they are
modelled from their use in `FilterBuilder` and do not affect the claim. -/

/-- Embeds the `EqualizerBand` interface. -/
structure EqualizerBand where
  band : ℚ
  gain : ℚ
deriving Repr, DecidableEq

/-- Embeds `KaraokeFilter` (fields as used by `FilterBuilder.karaoke`). -/
structure KaraokeFilter where
  level : ℚ
  monoLevel : ℚ
  filterBand : ℚ
  filterWidth : ℚ
deriving Repr, DecidableEq

/-- Embeds `TimescaleFilter` (fields as used by `FilterBuilder.timescale`). -/
structure TimescaleFilter where
  speed : Option ℚ
  pitch : Option ℚ
  rate : Option ℚ
deriving Repr, DecidableEq

/-- Embeds `TremoloFilter` (fields as used by `FilterBuilder.tremolo`). -/
structure TremoloFilter where
  frequency : ℚ
  depth : ℚ
deriving Repr, DecidableEq

/-- Embeds `RotationFilter` (field as used by `FilterBuilder.eightD`). -/
structure RotationFilter where
  rotationHz : ℚ
deriving Repr, DecidableEq

/-- Embeds `LowPassFilter` (field as used by `FilterBuilder.soft`). -/
structure LowPassFilter where
  smoothing : ℚ
deriving Repr, DecidableEq

/-- Embeds the `FilterOptions` object stored by a `FilterBuilder`.  Filters
whose payload `FilterBuilder` never inspects (vibrato, distortion, channel
mix) reuse structurally adequate payloads; absence of a key is `none`. -/
structure FilterOptions where
  volume : Option ℚ := none
  equalizer : Option (List EqualizerBand) := none
  karaoke : Option KaraokeFilter := none
  timescale : Option TimescaleFilter := none
  tremolo : Option TremoloFilter := none
  vibrato : Option TremoloFilter := none
  rotation : Option RotationFilter := none
  distortion : Option (List ℚ) := none
  channelMix : Option (List ℚ) := none
  lowPass : Option LowPassFilter := none
deriving Repr, DecidableEq

/-- The validation loop of `FilterBuilder.equalizer`: returns the first
validation error, checking band index before gain for each band in order. -/
def checkBands : List EqualizerBand → Except String Unit
  | [] => .ok ()
  | b :: rest =>
    if b.band < 0 ∨ b.band > 14 then
      .error "Equalizer band must be between 0 and 14"
    else if b.gain < -(1/4) ∨ b.gain > 1 then
      .error "Equalizer gain must be between -0.25 and 1.0"
    else checkBands rest

/-- Embeds `FilterBuilder.equalizer(bands)`: validate all bands, then (and
only then) store them; a thrown error leaves the stored filters untouched
(the caller keeps the old `FilterOptions`). -/
def FilterBuilder.equalizer (filters : FilterOptions) (bands : List EqualizerBand) :
    Except String FilterOptions :=
  match checkBands bands with
  | .error e => .error e
  | .ok _ => .ok { filters with equalizer := some bands }

/-- A band is in range when its index lies in `[0, 14]` and its gain in
`[-0.25, 1.0]`. -/
def bandInRange (b : EqualizerBand) : Prop :=
  0 ≤ b.band ∧ b.band ≤ 14 ∧ -(1/4) ≤ b.gain ∧ b.gain ≤ 1

instance : DecidablePred bandInRange := fun b => by
  unfold bandInRange
  infer_instance

/-- `checkBands` succeeds exactly when every band is in range. -/
theorem checkBands_ok_iff (bands : List EqualizerBand) :
    checkBands bands = .ok () ↔ ∀ b ∈ bands, bandInRange b := by
  induction bands with
  | nil => simp [checkBands]
  | cons b rest ih =>
    by_cases h1 : b.band < 0 ∨ b.band > 14
    · simp only [checkBands, if_pos h1]
      constructor
      · intro h
        exact absurd h (by simp)
      · intro h
        have := h b (List.mem_cons_self b rest)
        unfold bandInRange at this
        rcases h1 with h1 | h1
        · linarith [this.1]
        · linarith [this.2.1]
    · by_cases h2 : b.gain < -(1/4) ∨ b.gain > 1
      · simp only [checkBands, if_neg h1, if_pos h2]
        constructor
        · intro h
          exact absurd h (by simp)
        · intro h
          have := h b (List.mem_cons_self b rest)
          unfold bandInRange at this
          rcases h2 with h2 | h2
          · linarith [this.2.2.1]
          · linarith [this.2.2.2]
      · simp only [checkBands, if_neg h1, if_neg h2]
        rw [ih]
        constructor
        · intro h c hc
          rcases List.mem_cons.mp hc with hc | hc
          · subst hc
            push_neg at h1 h2
            exact ⟨h1.1, h1.2, h2.1, h2.2⟩
          · exact h c hc
        · intro h c hc
          exact h c (List.mem_cons_of_mem b hc)

/-- Claim C10: `FilterBuilder.equalizer(bands)` throws iff some band has an
index outside `[0, 14]` or a gain outside `[-0.25, 1.0]`; on success the
stored equalizer is exactly `bands` and every other filter field is
unchanged; on a throw no new configuration is produced (validation precedes
assignment, so the stored configuration is untouched). -/
theorem equalizer_validates (filters : FilterOptions) (bands : List EqualizerBand) :
    ((∃ e, FilterBuilder.equalizer filters bands = .error e) ↔
      ¬ ∀ b ∈ bands, bandInRange b) ∧
    ((∀ b ∈ bands, bandInRange b) →
      FilterBuilder.equalizer filters bands =
        .ok { filters with equalizer := some bands }) := by
  constructor
  · constructor
    · rintro ⟨e, he⟩ hall
      have hok := (checkBands_ok_iff bands).mpr hall
      rw [FilterBuilder.equalizer, hok] at he
      exact Except.noConfusion he
    · intro hnot
      cases hcb : checkBands bands with
      | error e =>
        refine ⟨e, ?_⟩
        rw [FilterBuilder.equalizer, hcb]
      | ok u =>
        cases u
        exact absurd ((checkBands_ok_iff bands).mp hcb) hnot
  · intro hall
    rw [FilterBuilder.equalizer, (checkBands_ok_iff bands).mpr hall]

/-- Witness for C10: a valid band list is stored; an out-of-range gain makes
`equalizer` throw. -/
theorem equalizer_validates_witness :
    FilterBuilder.equalizer {} [⟨0, 1/2⟩, ⟨14, -(1/4)⟩] =
      .ok { equalizer := some [⟨0, 1/2⟩, ⟨14, -(1/4)⟩] } ∧
    ∃ e, FilterBuilder.equalizer {} [⟨0, 2⟩] = .error e := by
  constructor
  · exact (equalizer_validates {} [⟨0, 1/2⟩, ⟨14, -(1/4)⟩]).2 (by norm_num [bandInRange])
  · exact ((equalizer_validates {} [⟨0, 2⟩]).1).mpr (by norm_num [bandInRange])

/-! ## VoiceForwarder (src/manager/VoiceForwarder.ts)

The forwarder keeps `voiceStates: Map<string, VoiceConnection>` keyed by guild
id, modelled as a function from guild ids to optional connections (exactly the
observable behaviour of a JS `Map`).  Event payload fields are strings; JS
truthiness (`if (x)`) on a `string | null | undefined` value is "present and
non-empty".  The handlers' side effects — debug emissions, `playerMove`
emission, `player.updateVoiceState(...)` (the actual credential forward),
`player.disconnect()` and the `throw new Error('Incomplete voice state')`
branch — are recorded in emission order as a list of `Effect`s; a throw ends
the list since it aborts the handler. -/

/-- Modelled from the spec: the `Player` session record (src/player/Player.ts
is not under src/).  The forwarder reads `guildId` and `voiceChannelId` and
calls `disconnect()`/`updateVoiceState()`; §3 of the spec additionally gives
the record an assigned node, stored as `nodeId` — `VoiceForwarder` never
reads it. -/
structure Player where
  guildId : String
  voiceChannelId : Option String
  nodeId : String
deriving Repr, DecidableEq

/-- Embeds the `VoiceConnection` interface of VoiceForwarder.ts. -/
structure VoiceConnection where
  guildId : String
  channelId : Option String
  sessionId : Option String := none
  token : Option String := none
  endpoint : Option String := none
deriving Repr, DecidableEq

/-- Embeds the completed `VoiceState` credential sent to the node. -/
structure VoiceState where
  token : String
  endpoint : String
  sessionId : String
deriving Repr, DecidableEq

/-- Modelled from the spec: the Discord voice event payloads (the
`types/lavalink` declarations are not under src/).  Shapes follow the
handlers' destructuring and §4.4/§6 of the spec: a VOICE_SERVER_UPDATE
carries a token and endpoint for a guild; a VOICE_STATE_UPDATE carries the
user, the session identifier and the possibly-absent channel. -/
inductive DiscordVoiceEvent where
  | voiceServerUpdate (guild_id token endpoint : String)
  | voiceStateUpdate (guild_id user_id session_id : String) (channel_id : Option String)
deriving Repr, DecidableEq

/-- Observable side effects of the forwarder, in emission order. -/
inductive Effect where
  | debug (msg : String)
  | playerMove (player : Player) (oldChannel newChannel : Option String)
  | forwarded (guildId : String) (voice : VoiceState)
  | disconnected (guildId : String)
  | incompleteError
deriving Repr, DecidableEq

/-- JS truthiness of an optional string: `undefined`, `null` and `""` are
falsy. -/
def truthy : Option String → Bool
  | none => false
  | some s => s != ""

/-- The `voiceStates` map. -/
abbrev VoiceStates := String → Option VoiceConnection

/-- `this.voiceStates.get(guildId)`. -/
def lookupState (m : VoiceStates) (g : String) : Option VoiceConnection := m g

/-- `this.voiceStates.set(guildId, v)`. -/
def setState (m : VoiceStates) (g : String) (v : VoiceConnection) : VoiceStates :=
  fun g' => if g' = g then some v else m g'

/-- `this.voiceStates.delete(guildId)`. -/
def deleteState (m : VoiceStates) (g : String) : VoiceStates :=
  fun g' => if g' = g then none else m g'

/-- The empty map (a fresh `VoiceForwarder`). -/
def emptyStates : VoiceStates := fun _ => none

/-- The "get or create voice connection state" block shared by both handlers
(the server handler creates the record with `channelId: null`, the state
handler with the packet's channel). -/
def getOrCreate (states : VoiceStates) (guild_id : String)
    (channel : Option String) : VoiceConnection :=
  match lookupState states guild_id with
  | some v => v
  | none => { guildId := guild_id, channelId := channel }

/-- Embeds `forwardVoiceState`: throws `'Incomplete voice state'` when any of
the three credential parts is missing or empty, otherwise calls
`player.updateVoiceState` with the combined credential and emits the debug
line. -/
def forwardVoiceState (player : Player) (voiceState : VoiceConnection) :
    List Effect :=
  if !truthy voiceState.sessionId || !truthy voiceState.token ||
      !truthy voiceState.endpoint then
    [Effect.incompleteError]
  else
    [Effect.forwarded player.guildId
      ⟨voiceState.token.getD "", voiceState.endpoint.getD "",
        voiceState.sessionId.getD ""⟩,
     Effect.debug ("Forwarded voice state to Lavalink for guild " ++
       player.guildId)]

/-- Embeds `handleVoiceServerUpdate`: store token and endpoint, then forward
when a player is present and a session id is already stored. -/
def handleVoiceServerUpdate (states : VoiceStates)
    (guild_id token endpoint : String) (player : Option Player) :
    VoiceStates × List Effect :=
  let eff0 := [Effect.debug ("Voice server update for guild " ++ guild_id)]
  let voiceState :=
    { getOrCreate states guild_id none with
        token := some token, endpoint := some endpoint }
  let states' := setState states guild_id voiceState
  match player with
  | some p =>
    if truthy voiceState.sessionId then
      (states', eff0 ++ forwardVoiceState p voiceState)
    else (states', eff0)
  | none => (states', eff0)

/-- Embeds `handleVoiceStateUpdate`: ignore other users, store session id and
channel, tear down on an empty/absent channel, emit `playerMove` on a channel
change, then forward when a player is present and token and endpoint are
already stored. -/
def handleVoiceStateUpdate (clientId : String) (states : VoiceStates)
    (guild_id user_id session_id : String) (channel_id : Option String)
    (player : Option Player) : VoiceStates × List Effect :=
  if user_id ≠ clientId then (states, [])
  else
    let eff0 := [Effect.debug ("Voice state update for guild " ++ guild_id)]
    let voiceState :=
      { getOrCreate states guild_id channel_id with
          sessionId := some session_id, channelId := channel_id }
    if !truthy channel_id then
      (deleteState (setState states guild_id voiceState) guild_id,
        eff0 ++
          match player with
          | some p => [Effect.disconnected p.guildId]
          | none => [])
    else
      let states' := setState states guild_id voiceState
      let moveEffects :=
        match player with
        | some p =>
          if p.voiceChannelId ≠ channel_id then
            [Effect.playerMove p p.voiceChannelId channel_id]
          else []
        | none => []
      let fwdEffects :=
        match player with
        | some p =>
          if truthy voiceState.token && truthy voiceState.endpoint then
            forwardVoiceState p voiceState
          else []
        | none => []
      (states', eff0 ++ moveEffects ++ fwdEffects)

/-- Embeds `handleVoiceUpdate`: dispatch on the packet discriminator. -/
def handleVoiceUpdate (clientId : String) (states : VoiceStates)
    (packet : DiscordVoiceEvent) (player : Option Player) :
    VoiceStates × List Effect :=
  match packet with
  | .voiceServerUpdate guild_id token endpoint =>
    handleVoiceServerUpdate states guild_id token endpoint player
  | .voiceStateUpdate guild_id user_id session_id channel_id =>
    handleVoiceStateUpdate clientId states guild_id user_id session_id
      channel_id player

/-- Processes a sequence of events (each with the player the caller passed
for it), concatenating the emitted effects in order. -/
def processEvents (clientId : String) :
    VoiceStates → List (DiscordVoiceEvent × Option Player) →
    VoiceStates × List Effect
  | states, [] => (states, [])
  | states, (ev, player) :: rest =>
    let step := handleVoiceUpdate clientId states ev player
    let next := processEvents clientId step.1 rest
    (next.1, step.2 ++ next.2)

/-- The guild an event is keyed by. -/
def eventGuild : DiscordVoiceEvent → String
  | .voiceServerUpdate g _ _ => g
  | .voiceStateUpdate g _ _ _ => g

/-- A well-formed event carries non-empty credential fields, as §4.4 of the
spec describes them (the server event "carries an authentication token and a
connection endpoint", the state event "carries the session identifier"). -/
def wellFormedEvent : DiscordVoiceEvent → Prop
  | .voiceServerUpdate _ token endpoint => token ≠ "" ∧ endpoint ≠ ""
  | .voiceStateUpdate _ _ session_id _ => session_id ≠ ""

instance : DecidablePred wellFormedEvent := fun e => by
  cases e <;> (unfold wellFormedEvent; infer_instance)

/-- Every credential fragment of a stored connection, when set, is
non-empty. -/
def wfConn (v : VoiceConnection) : Prop :=
  (∀ s, v.sessionId = some s → s ≠ "") ∧
  (∀ s, v.token = some s → s ≠ "") ∧
  (∀ s, v.endpoint = some s → s ≠ "")

/-- Every stored connection is well-formed. -/
def wfStates (m : VoiceStates) : Prop :=
  ∀ g v, lookupState m g = some v → wfConn v

/-- Recognisers and counters over effect lists. -/
def isPlayerMove : Effect → Bool
  | .playerMove _ _ _ => true
  | _ => false

/-- Recognises a credential forward. -/
def isForwarded : Effect → Bool
  | .forwarded _ _ => true
  | _ => false

/-- Number of credential forwards in an effect list. -/
def countForwards (effects : List Effect) : ℕ :=
  effects.countP isForwarded

/-- Whether some `playerMove` was emitted. -/
def hasPlayerMove (effects : List Effect) : Bool :=
  effects.any isPlayerMove

/-- No `playerMove` is emitted after a credential forward (every move
notification precedes every forward). -/
def noMoveAfterForward : List Effect → Bool
  | [] => true
  | e :: rest =>
    if isForwarded e then
      (rest.all fun x => !isPlayerMove x) && noMoveAfterForward rest
    else noMoveAfterForward rest

/-- Forwarding condition of a single event: the event completes (or
re-completes) the stored pair and a player is present.  For a server event
the stored session id must already be present and the incoming token and
endpoint non-empty; for a state event it must be the bot's, with a truthy
channel, stored token and endpoint present, and a non-empty session id. -/
def forwardCondition (clientId : String) (states : VoiceStates) :
    DiscordVoiceEvent → Option Player → Prop
  | .voiceServerUpdate g t e, some _ =>
    truthy (getOrCreate states g none).sessionId = true ∧ t ≠ "" ∧ e ≠ ""
  | .voiceStateUpdate g u s c, some _ =>
    u = clientId ∧ truthy c = true ∧
    truthy (getOrCreate states g c).token = true ∧
    truthy (getOrCreate states g c).endpoint = true ∧ s ≠ ""
  | _, none => False

/-- Truthiness of an optional string unpacked. -/
theorem truthy_iff (o : Option String) :
    truthy o = true ↔ ∃ s, o = some s ∧ s ≠ "" := by
  cases o with
  | none => simp [truthy]
  | some s => simp [truthy]

/-- A non-empty string is truthy. -/
theorem truthy_some {s : String} (h : s ≠ "") : truthy (some s) = true := by
  simp [truthy, h]

/-- A truthy optional string defaults to a non-empty string. -/
theorem truthy_getD {o : Option String} (h : truthy o = true) : o.getD "" ≠ "" := by
  rcases (truthy_iff o).mp h with ⟨s, rfl, hs⟩
  simpa using hs

/-- `set` only changes the written key. -/
theorem lookup_setState (m : VoiceStates) (g g' : String) (v : VoiceConnection) :
    lookupState (setState m g v) g' = if g' = g then some v else lookupState m g' :=
  rfl

/-- `delete` only clears the deleted key. -/
theorem lookup_deleteState (m : VoiceStates) (g g' : String) :
    lookupState (deleteState m g) g' = if g' = g then none else lookupState m g' :=
  rfl

/-- Setting a well-formed connection preserves map well-formedness. -/
theorem wfStates_set {m : VoiceStates} {v : VoiceConnection} (g : String)
    (hm : wfStates m) (hv : wfConn v) : wfStates (setState m g v) := by
  intro g' w hw
  rw [lookup_setState] at hw
  by_cases hg : g' = g
  · rw [if_pos hg] at hw
    injection hw with hw
    rw [← hw]
    exact hv
  · rw [if_neg hg] at hw
    exact hm g' w hw

/-- Deletion preserves map well-formedness. -/
theorem wfStates_delete {m : VoiceStates} (g : String) (hm : wfStates m) :
    wfStates (deleteState m g) := by
  intro g' w hw
  rw [lookup_deleteState] at hw
  by_cases hg : g' = g
  · rw [if_pos hg] at hw
    exact Option.noConfusion hw
  · rw [if_neg hg] at hw
    exact hm g' w hw

/-- The looked-up-or-created connection is well-formed. -/
theorem wfConn_getOrCreate {m : VoiceStates} (g : String) (c : Option String)
    (hm : wfStates m) : wfConn (getOrCreate m g c) := by
  unfold getOrCreate
  cases hl : lookupState m g with
  | some v => exact hm g v hl
  | none =>
    refine ⟨?_, ?_, ?_⟩ <;> (intro s hs; exact Option.noConfusion hs)

/-- With all three parts truthy, `forwardVoiceState` forwards and logs. -/
theorem forwardVoiceState_complete (p : Player) (v : VoiceConnection)
    (hs : truthy v.sessionId = true) (ht : truthy v.token = true)
    (he : truthy v.endpoint = true) :
    forwardVoiceState p v =
      [Effect.forwarded p.guildId
        ⟨v.token.getD "", v.endpoint.getD "", v.sessionId.getD ""⟩,
       Effect.debug ("Forwarded voice state to Lavalink for guild " ++
         p.guildId)] := by
  unfold forwardVoiceState
  rw [hs, ht, he]
  simp

/-- With all three parts truthy, the forward emits no error and only complete
credentials. -/
theorem forwardVoiceState_sound (p : Player) (v : VoiceConnection)
    (hs : truthy v.sessionId = true) (ht : truthy v.token = true)
    (he : truthy v.endpoint = true) :
    Effect.incompleteError ∉ forwardVoiceState p v ∧
    ∀ gg w, Effect.forwarded gg w ∈ forwardVoiceState p v →
      w.token ≠ "" ∧ w.endpoint ≠ "" ∧ w.sessionId ≠ "" := by
  rw [forwardVoiceState_complete p v hs ht he]
  constructor
  · simp
  · intro gg w hw
    simp only [List.mem_cons, List.mem_singleton] at hw
    rcases hw with hw | hw | hw
    · injection hw with h1 h2
      subst h2
      exact ⟨truthy_getD ht, truthy_getD he, truthy_getD hs⟩
    · exact Effect.noConfusion hw
    · exact absurd hw (by simp)

/-- Step soundness for `handleVoiceServerUpdate` under well-formed inputs:
the map stays well-formed, the incomplete-credential throw is not reached,
and any forwarded credential is complete. -/
theorem handleVoiceServerUpdate_wf (states : VoiceStates) (g t e : String)
    (player : Option Player) (hwf : wfStates states) (ht : t ≠ "") (he : e ≠ "") :
    wfStates (handleVoiceServerUpdate states g t e player).1 ∧
    Effect.incompleteError ∉ (handleVoiceServerUpdate states g t e player).2 ∧
    ∀ gg v, Effect.forwarded gg v ∈ (handleVoiceServerUpdate states g t e player).2 →
      v.token ≠ "" ∧ v.endpoint ≠ "" ∧ v.sessionId ≠ "" := by
  have hwf0 := wfConn_getOrCreate (m := states) g none hwf
  have hwfv : wfConn
      { getOrCreate states g none with token := some t, endpoint := some e } := by
    refine ⟨fun s hs => hwf0.1 s hs, fun s hs => ?_, fun s hs => ?_⟩
    · have hs' : some t = some s := hs
      injection hs' with h
      rw [← h]
      exact ht
    · have hs' : some e = some s := hs
      injection hs' with h
      rw [← h]
      exact he
  have hmap := wfStates_set (m := states) g hwf hwfv
  rcases player with _ | p
  · refine ⟨hmap, ?_, ?_⟩
    · simp [handleVoiceServerUpdate]
    · intro gg v hv
      simp [handleVoiceServerUpdate] at hv
  · by_cases hsid : truthy (getOrCreate states g none).sessionId = true
    · have hcomp := forwardVoiceState_sound p
        { getOrCreate states g none with token := some t, endpoint := some e }
        hsid (truthy_some ht) (truthy_some he)
      have heq : handleVoiceServerUpdate states g t e (some p) =
          (setState states g
            { getOrCreate states g none with token := some t, endpoint := some e },
           [Effect.debug ("Voice server update for guild " ++ g)] ++
             forwardVoiceState p
               { getOrCreate states g none with
                   token := some t, endpoint := some e }) := by
        simp only [handleVoiceServerUpdate]
        rw [if_pos hsid]
      rw [heq]
      refine ⟨hmap, ?_, ?_⟩
      · intro hmem
        rcases List.mem_append.mp hmem with hmem | hmem
        · simp at hmem
        · exact hcomp.1 hmem
      · intro gg v hv
        rcases List.mem_append.mp hv with hv | hv
        · simp at hv
        · exact hcomp.2 gg v hv
    · have heq : handleVoiceServerUpdate states g t e (some p) =
          (setState states g
            { getOrCreate states g none with token := some t, endpoint := some e },
           [Effect.debug ("Voice server update for guild " ++ g)]) := by
        simp only [handleVoiceServerUpdate]
        rw [if_neg hsid]
      rw [heq]
      refine ⟨hmap, ?_, ?_⟩
      · simp
      · intro gg v hv
        simp at hv

/-- Step soundness for `handleVoiceStateUpdate` under well-formed inputs:
the map stays well-formed, the incomplete-credential throw is not reached,
and any forwarded credential is complete. -/
theorem handleVoiceStateUpdate_wf (clientId : String) (states : VoiceStates)
    (g u s : String) (c : Option String) (player : Option Player)
    (hwf : wfStates states) (hsess : s ≠ "") :
    wfStates (handleVoiceStateUpdate clientId states g u s c player).1 ∧
    Effect.incompleteError ∉ (handleVoiceStateUpdate clientId states g u s c player).2 ∧
    ∀ gg v, Effect.forwarded gg v ∈
        (handleVoiceStateUpdate clientId states g u s c player).2 →
      v.token ≠ "" ∧ v.endpoint ≠ "" ∧ v.sessionId ≠ "" := by
  by_cases hu : u = clientId
  case neg =>
    have heq : handleVoiceStateUpdate clientId states g u s c player = (states, []) := by
      simp only [handleVoiceStateUpdate]
      rw [if_pos hu]
    rw [heq]
    exact ⟨hwf, by simp, by intro gg v hv; simp at hv⟩
  case pos =>
    have hwf0 := wfConn_getOrCreate (m := states) g c hwf
    have hwfv : wfConn
        { getOrCreate states g c with sessionId := some s, channelId := c } := by
      refine ⟨fun s' hs' => ?_, fun s' hs' => hwf0.2.1 s' hs',
        fun s' hs' => hwf0.2.2 s' hs'⟩
      have hs'' : some s = some s' := hs'
      injection hs'' with h
      rw [← h]
      exact hsess
    have hmap := wfStates_set (m := states) g hwf hwfv
    by_cases hch : truthy c = true
    case neg =>
      have hcf : truthy c = false := by
        revert hch
        cases truthy c <;> simp
      have hcb : (!truthy c) = true := by
        rw [hcf]
        rfl
      rcases player with _ | p
      · have heq : handleVoiceStateUpdate clientId states g u s c none =
            (deleteState (setState states g
              { getOrCreate states g c with sessionId := some s, channelId := c }) g,
             [Effect.debug ("Voice state update for guild " ++ g)]) := by
          simp only [handleVoiceStateUpdate]
          rw [if_neg (not_not_intro hu), if_pos hcb]
          simp
        rw [heq]
        refine ⟨wfStates_delete g hmap, by simp, ?_⟩
        intro gg v hv
        simp at hv
      · have heq : handleVoiceStateUpdate clientId states g u s c (some p) =
            (deleteState (setState states g
              { getOrCreate states g c with sessionId := some s, channelId := c }) g,
             [Effect.debug ("Voice state update for guild " ++ g),
              Effect.disconnected p.guildId]) := by
          simp only [handleVoiceStateUpdate]
          rw [if_neg (not_not_intro hu), if_pos hcb]
          simp
        rw [heq]
        refine ⟨wfStates_delete g hmap, by simp, ?_⟩
        intro gg v hv
        simp at hv
    case pos =>
      have hcb : ¬ ((!truthy c) = true) := by
        rw [hch]
        simp
      rcases player with _ | p
      · have heq : handleVoiceStateUpdate clientId states g u s c none =
            (setState states g
              { getOrCreate states g c with sessionId := some s, channelId := c },
             [Effect.debug ("Voice state update for guild " ++ g)]) := by
          simp only [handleVoiceStateUpdate]
          rw [if_neg (not_not_intro hu), if_neg hcb]
          simp
        rw [heq]
        refine ⟨hmap, by simp, ?_⟩
        intro gg v hv
        simp at hv
      · have heq : handleVoiceStateUpdate clientId states g u s c (some p) =
            (setState states g
              { getOrCreate states g c with sessionId := some s, channelId := c },
             [Effect.debug ("Voice state update for guild " ++ g)] ++
               (if p.voiceChannelId ≠ c then
                 [Effect.playerMove p p.voiceChannelId c]
               else []) ++
               (if truthy (getOrCreate states g c).token &&
                   truthy (getOrCreate states g c).endpoint then
                 forwardVoiceState p
                   { getOrCreate states g c with
                       sessionId := some s, channelId := c }
               else [])) := by
          simp only [handleVoiceStateUpdate]
          rw [if_neg (not_not_intro hu), if_neg hcb]
        rw [heq]
        by_cases hgate : (truthy (getOrCreate states g c).token &&
            truthy (getOrCreate states g c).endpoint) = true
        · have ht' : truthy (getOrCreate states g c).token = true :=
            (Bool.and_eq_true _ _).mp hgate |>.1
          have he' : truthy (getOrCreate states g c).endpoint = true :=
            (Bool.and_eq_true _ _).mp hgate |>.2
          have hcomp := forwardVoiceState_sound p
            { getOrCreate states g c with sessionId := some s, channelId := c }
            (truthy_some hsess) ht' he'
          rw [if_pos hgate]
          refine ⟨hmap, ?_, ?_⟩
          · intro hmem
            rcases List.mem_append.mp hmem with hmem | hmem
            · rcases List.mem_append.mp hmem with hmem | hmem
              · simp at hmem
              · revert hmem
                by_cases hmv : p.voiceChannelId ≠ c
                · rw [if_pos hmv]
                  simp
                · rw [if_neg hmv]
                  simp
            · exact hcomp.1 hmem
          · intro gg v hv
            rcases List.mem_append.mp hv with hv | hv
            · rcases List.mem_append.mp hv with hv | hv
              · simp at hv
              · revert hv
                by_cases hmv : p.voiceChannelId ≠ c
                · rw [if_pos hmv]
                  simp
                · rw [if_neg hmv]
                  simp
            · exact hcomp.2 gg v hv
        · rw [if_neg hgate]
          refine ⟨hmap, ?_, ?_⟩
          · intro hmem
            rcases List.mem_append.mp hmem with hmem | hmem
            · rcases List.mem_append.mp hmem with hmem | hmem
              · simp at hmem
              · revert hmem
                by_cases hmv : p.voiceChannelId ≠ c
                · rw [if_pos hmv]
                  simp
                · rw [if_neg hmv]
                  simp
            · simp at hmem
          · intro gg v hv
            rcases List.mem_append.mp hv with hv | hv
            · rcases List.mem_append.mp hv with hv | hv
              · simp at hv
              · revert hv
                by_cases hmv : p.voiceChannelId ≠ c
                · rw [if_pos hmv]
                  simp
                · rw [if_neg hmv]
                  simp
            · simp at hv

/-- Step soundness for `handleVoiceUpdate`. -/
theorem handleVoiceUpdate_wf (clientId : String) (states : VoiceStates)
    (ev : DiscordVoiceEvent) (player : Option Player)
    (hwf : wfStates states) (hev : wellFormedEvent ev) :
    wfStates (handleVoiceUpdate clientId states ev player).1 ∧
    Effect.incompleteError ∉ (handleVoiceUpdate clientId states ev player).2 ∧
    ∀ gg v, Effect.forwarded gg v ∈ (handleVoiceUpdate clientId states ev player).2 →
      v.token ≠ "" ∧ v.endpoint ≠ "" ∧ v.sessionId ≠ "" := by
  cases ev with
  | voiceServerUpdate g t e =>
    exact handleVoiceServerUpdate_wf states g t e player hwf hev.1 hev.2
  | voiceStateUpdate g u s c =>
    exact handleVoiceStateUpdate_wf clientId states g u s c player hwf hev

/-- Claim C1: over any sequence of voice events (in any arrival order, with
any players) whose payloads carry their credential fields (non-empty token,
endpoint, session id), a credential is forwarded only with all three of
token, endpoint and session id present (non-empty), and the
`'Incomplete voice state'` throw in `forwardVoiceState` is never reached from
`handleVoiceUpdate`. -/
theorem voice_forward_gated (clientId : String) (states : VoiceStates)
    (evs : List (DiscordVoiceEvent × Option Player))
    (hwf : wfStates states) (hevs : ∀ pr ∈ evs, wellFormedEvent pr.1) :
    Effect.incompleteError ∉ (processEvents clientId states evs).2 ∧
    ∀ g v, Effect.forwarded g v ∈ (processEvents clientId states evs).2 →
      v.token ≠ "" ∧ v.endpoint ≠ "" ∧ v.sessionId ≠ "" := by
  induction evs generalizing states with
  | nil =>
    constructor
    · simp [processEvents]
    · intro g v hv
      simp [processEvents] at hv
  | cons pr rest ih =>
    obtain ⟨ev, player⟩ := pr
    have hstep := handleVoiceUpdate_wf clientId states ev player hwf
      (hevs _ (List.mem_cons_self _ _))
    have hrest := ih (handleVoiceUpdate clientId states ev player).1 hstep.1
      (fun pr hpr => hevs pr (List.mem_cons_of_mem _ hpr))
    constructor
    · intro hmem
      simp only [processEvents] at hmem
      rcases List.mem_append.mp hmem with h | h
      · exact hstep.2.1 h
      · exact hrest.1 h
    · intro g v hv
      simp only [processEvents] at hv
      rcases List.mem_append.mp hv with h | h
      · exact hstep.2.2 g v h
      · exact hrest.2 g v h

/-- Witness for C1: a concrete two-event trace (state then server) forwards
only complete credentials and never reaches the throw. -/
theorem voice_forward_gated_witness :
    Effect.incompleteError ∉ (processEvents "bot" emptyStates
      [(DiscordVoiceEvent.voiceStateUpdate "g" "bot" "s" (some "c"),
        some ⟨"g", some "c", "n1"⟩),
       (DiscordVoiceEvent.voiceServerUpdate "g" "t" "e",
        some ⟨"g", some "c", "n1"⟩)]).2 ∧
    ∀ g v, Effect.forwarded g v ∈ (processEvents "bot" emptyStates
      [(DiscordVoiceEvent.voiceStateUpdate "g" "bot" "s" (some "c"),
        some ⟨"g", some "c", "n1"⟩),
       (DiscordVoiceEvent.voiceServerUpdate "g" "t" "e",
        some ⟨"g", some "c", "n1"⟩)]).2 →
      v.token ≠ "" ∧ v.endpoint ≠ "" ∧ v.sessionId ≠ "" :=
  voice_forward_gated "bot" emptyStates
    [(DiscordVoiceEvent.voiceStateUpdate "g" "bot" "s" (some "c"),
      some ⟨"g", some "c", "n1"⟩),
     (DiscordVoiceEvent.voiceServerUpdate "g" "t" "e",
      some ⟨"g", some "c", "n1"⟩)]
    (fun _ _ h => Option.noConfusion h) (by decide)

/-- Claim C8: a VOICE_STATE_UPDATE for a different user is ignored entirely —
the map is returned unchanged and no effect (forward, disconnect, move or
even a debug line) is produced. -/
theorem state_update_other_user_noop (clientId : String) (states : VoiceStates)
    (g u s : String) (c : Option String) (player : Option Player)
    (hu : u ≠ clientId) :
    handleVoiceUpdate clientId states
      (DiscordVoiceEvent.voiceStateUpdate g u s c) player = (states, []) := by
  simp only [handleVoiceUpdate, handleVoiceStateUpdate]
  rw [if_pos hu]

/-- Witness for C8: a concrete foreign-user update is a no-op. -/
theorem state_update_other_user_noop_witness :
    handleVoiceUpdate "bot" emptyStates
      (DiscordVoiceEvent.voiceStateUpdate "g" "someone" "s" (some "c"))
      (some ⟨"g", some "c", "n1"⟩) = (emptyStates, []) :=
  state_update_other_user_noop "bot" emptyStates "g" "someone" "s" (some "c")
    (some ⟨"g", some "c", "n1"⟩) (by decide)

/-- `forwardVoiceState` forwards at most once, and exactly once iff all three
credential parts are truthy. -/
theorem countForwards_forwardVoiceState (p : Player) (v : VoiceConnection) :
    countForwards (forwardVoiceState p v) ≤ 1 ∧
    (countForwards (forwardVoiceState p v) = 1 ↔
      truthy v.sessionId = true ∧ truthy v.token = true ∧
        truthy v.endpoint = true) := by
  unfold forwardVoiceState
  by_cases h : (!truthy v.sessionId || !truthy v.token || !truthy v.endpoint) = true
  · rw [if_pos h]
    have hcount : countForwards [Effect.incompleteError] = 0 := by
      simp [countForwards, List.countP_cons, List.countP_nil, isForwarded]
    rw [hcount]
    refine ⟨by omega, ?_, ?_⟩
    · intro h1
      omega
    · rintro ⟨h1, h2, h3⟩
      rw [h1, h2, h3] at h
      simp at h
  · rw [if_neg h]
    have hparts : truthy v.sessionId = true ∧ truthy v.token = true ∧
        truthy v.endpoint = true := by
      rcases Bool.not_eq_true _ |>.mp h |> Bool.or_eq_false_iff.mp with ⟨h12, h3⟩
      rcases Bool.or_eq_false_iff.mp h12 with ⟨h1, h2⟩
      refine ⟨?_, ?_, ?_⟩ <;> simp_all
    have hcount : countForwards
        [Effect.forwarded p.guildId
          ⟨v.token.getD "", v.endpoint.getD "", v.sessionId.getD ""⟩,
         Effect.debug ("Forwarded voice state to Lavalink for guild " ++
           p.guildId)] = 1 := by
      simp [countForwards, List.countP_cons, List.countP_nil, isForwarded]
    rw [hcount]
    exact ⟨le_refl 1, by simp [hparts]⟩

/-- Appending effects adds forward counts. -/
theorem countForwards_append (l1 l2 : List Effect) :
    countForwards (l1 ++ l2) = countForwards l1 + countForwards l2 :=
  List.countP_append _ _ _

/-- `countForwards` of the non-forward effects. -/
theorem countForwards_debug (m : String) (l : List Effect) :
    countForwards (Effect.debug m :: l) = countForwards l := by
  simp [countForwards, List.countP_cons, isForwarded]

/-- A `playerMove` contributes no forward. -/
theorem countForwards_playerMove (p : Player) (o n : Option String)
    (l : List Effect) :
    countForwards (Effect.playerMove p o n :: l) = countForwards l := by
  simp [countForwards, List.countP_cons, isForwarded]

/-- The empty effect list forwards nothing. -/
theorem countForwards_nil : countForwards ([] : List Effect) = 0 := rfl

/-- Per-event forward count: each processed event forwards at most once, and
exactly once iff the event (re-)completes the stored credential pair with a
player present. -/
theorem countForwards_step (clientId : String) (states : VoiceStates)
    (ev : DiscordVoiceEvent) (player : Option Player) :
    countForwards (handleVoiceUpdate clientId states ev player).2 ≤ 1 ∧
    (countForwards (handleVoiceUpdate clientId states ev player).2 = 1 ↔
      forwardCondition clientId states ev player) := by
  cases ev with
  | voiceServerUpdate g t e =>
    rcases player with _ | p
    · have heq : (handleVoiceUpdate clientId states
          (DiscordVoiceEvent.voiceServerUpdate g t e) none).2 =
          [Effect.debug ("Voice server update for guild " ++ g)] := rfl
      rw [heq, countForwards_debug, countForwards_nil]
      refine ⟨by omega, ?_, ?_⟩
      · intro h
        exact absurd h (by omega)
      · intro h
        exact h.elim
    · by_cases hsid : truthy (getOrCreate states g none).sessionId = true
      · have heq : (handleVoiceUpdate clientId states
            (DiscordVoiceEvent.voiceServerUpdate g t e) (some p)).2 =
            [Effect.debug ("Voice server update for guild " ++ g)] ++
              forwardVoiceState p
                { getOrCreate states g none with
                    token := some t, endpoint := some e } := by
          simp only [handleVoiceUpdate, handleVoiceServerUpdate]
          rw [if_pos hsid]
        have hfwd := countForwards_forwardVoiceState p
          { getOrCreate states g none with
              token := some t, endpoint := some e }
        have hcnt : countForwards (handleVoiceUpdate clientId states
            (DiscordVoiceEvent.voiceServerUpdate g t e) (some p)).2 =
            countForwards (forwardVoiceState p
              { getOrCreate states g none with
                  token := some t, endpoint := some e }) := by
          rw [heq, countForwards_append, countForwards_debug, countForwards_nil]
          omega
        rw [hcnt]
        refine ⟨hfwd.1, hfwd.2.trans ?_⟩
        constructor
        · rintro ⟨h1, h2, h3⟩
          refine ⟨hsid, ?_, ?_⟩
          · have h2' : (t != "") = true := h2
            simpa using h2'
          · have h3' : (e != "") = true := h3
            simpa using h3'
        · rintro ⟨h1, h2, h3⟩
          exact ⟨hsid, truthy_some h2, truthy_some h3⟩
      · have heq : (handleVoiceUpdate clientId states
            (DiscordVoiceEvent.voiceServerUpdate g t e) (some p)).2 =
            [Effect.debug ("Voice server update for guild " ++ g)] := by
          simp only [handleVoiceUpdate, handleVoiceServerUpdate]
          rw [if_neg hsid]
        rw [heq, countForwards_debug, countForwards_nil]
        refine ⟨by omega, ?_, ?_⟩
        · intro h
          exact absurd h (by omega)
        · rintro ⟨h1, h2, h3⟩
          exact absurd h1 hsid
  | voiceStateUpdate g u s c =>
    by_cases hu : u = clientId
    case neg =>
      have heq : (handleVoiceUpdate clientId states
          (DiscordVoiceEvent.voiceStateUpdate g u s c) player).2 = [] := by
        simp only [handleVoiceUpdate, handleVoiceStateUpdate]
        rw [if_pos hu]
      rw [heq, countForwards_nil]
      refine ⟨by omega, ?_, ?_⟩
      · intro h
        exact absurd h (by omega)
      · intro h
        rcases player with _ | p
        · exact h.elim
        · exact absurd h.1 hu
    case pos =>
      by_cases hch : truthy c = true
      case neg =>
        have hcf : truthy c = false := by
          revert hch
          cases truthy c <;> simp
        have hcb : (!truthy c) = true := by
          rw [hcf]
          rfl
        rcases player with _ | p
        · have heq : (handleVoiceUpdate clientId states
              (DiscordVoiceEvent.voiceStateUpdate g u s c) none).2 =
              [Effect.debug ("Voice state update for guild " ++ g)] := by
            simp only [handleVoiceUpdate, handleVoiceStateUpdate]
            rw [if_neg (not_not_intro hu), if_pos hcb]
            simp
          rw [heq, countForwards_debug, countForwards_nil]
          refine ⟨by omega, ?_, ?_⟩
          · intro h
            exact absurd h (by omega)
          · intro h
            exact h.elim
        · have heq : (handleVoiceUpdate clientId states
              (DiscordVoiceEvent.voiceStateUpdate g u s c) (some p)).2 =
              [Effect.debug ("Voice state update for guild " ++ g),
               Effect.disconnected p.guildId] := by
            simp only [handleVoiceUpdate, handleVoiceStateUpdate]
            rw [if_neg (not_not_intro hu), if_pos hcb]
            simp
          have hd : countForwards [Effect.disconnected p.guildId] = 0 := by
            simp [countForwards, List.countP_cons, List.countP_nil, isForwarded]
          rw [heq, countForwards_debug, hd]
          refine ⟨by omega, ?_, ?_⟩
          · intro h
            exact absurd h (by omega)
          · rintro ⟨_, h2, _⟩
            rw [h2] at hcf
            exact Bool.noConfusion hcf
      case pos =>
        have hcb : ¬ ((!truthy c) = true) := by
          rw [hch]
          simp
        rcases player with _ | p
        · have heq : (handleVoiceUpdate clientId states
              (DiscordVoiceEvent.voiceStateUpdate g u s c) none).2 =
              [Effect.debug ("Voice state update for guild " ++ g)] := by
            simp only [handleVoiceUpdate, handleVoiceStateUpdate]
            rw [if_neg (not_not_intro hu), if_neg hcb]
            simp
          rw [heq, countForwards_debug, countForwards_nil]
          refine ⟨by omega, ?_, ?_⟩
          · intro h
            exact absurd h (by omega)
          · intro h
            exact h.elim
        · have heq : (handleVoiceUpdate clientId states
              (DiscordVoiceEvent.voiceStateUpdate g u s c) (some p)).2 =
              [Effect.debug ("Voice state update for guild " ++ g)] ++
                (if p.voiceChannelId ≠ c then
                  [Effect.playerMove p p.voiceChannelId c]
                else []) ++
                (if truthy (getOrCreate states g c).token &&
                    truthy (getOrCreate states g c).endpoint then
                  forwardVoiceState p
                    { getOrCreate states g c with
                        sessionId := some s, channelId := c }
                else []) := by
            simp only [handleVoiceUpdate, handleVoiceStateUpdate]
            rw [if_neg (not_not_intro hu), if_neg hcb]
          have hmv0 : countForwards (if p.voiceChannelId ≠ c then
              [Effect.playerMove p p.voiceChannelId c] else []) = 0 := by
            by_cases hmv : p.voiceChannelId ≠ c
            · rw [if_pos hmv, countForwards_playerMove]
              rfl
            · rw [if_neg hmv]
              rfl
          have hcnt : countForwards (handleVoiceUpdate clientId states
              (DiscordVoiceEvent.voiceStateUpdate g u s c) (some p)).2 =
              countForwards (if truthy (getOrCreate states g c).token &&
                  truthy (getOrCreate states g c).endpoint then
                forwardVoiceState p
                  { getOrCreate states g c with
                      sessionId := some s, channelId := c }
              else []) := by
            rw [heq, countForwards_append, countForwards_append,
              countForwards_debug, countForwards_nil, hmv0]
            omega
          rw [hcnt]
          by_cases hgate : (truthy (getOrCreate states g c).token &&
              truthy (getOrCreate states g c).endpoint) = true
          · rw [if_pos hgate]
            have hfwd := countForwards_forwardVoiceState p
              { getOrCreate states g c with
                  sessionId := some s, channelId := c }
            have htok := (Bool.and_eq_true _ _).mp hgate |>.1
            have hend := (Bool.and_eq_true _ _).mp hgate |>.2
            refine ⟨hfwd.1, hfwd.2.trans ?_⟩
            constructor
            · rintro ⟨h1, _, _⟩
              refine ⟨hu, hch, htok, hend, ?_⟩
              have h1' : (s != "") = true := h1
              simpa using h1'
            · rintro ⟨_, _, _, _, h5⟩
              exact ⟨truthy_some h5, htok, hend⟩
          · rw [if_neg hgate]
            rw [countForwards_nil]
            refine ⟨by omega, ?_, ?_⟩
            · intro h
              exact absurd h (by omega)
            · rintro ⟨_, _, h3, h4, _⟩
              rw [h3, h4] at hgate
              simp at hgate

/-- Claim C2 (amended): each processed event forwards at most once, and
forwards exactly once iff a player is present and the event's fragment
update leaves the stored pair complete — never before both fragments are
present, in any arrival order.  (Re-delivering an event that leaves the
fragments unchanged therefore forwards again; see the counterexample.) -/
theorem forward_iff_complete (clientId : String) (states : VoiceStates)
    (ev : DiscordVoiceEvent) (player : Option Player) :
    countForwards (handleVoiceUpdate clientId states ev player).2 ≤ 1 ∧
    (countForwards (handleVoiceUpdate clientId states ev player).2 = 1 ↔
      forwardCondition clientId states ev player) :=
  countForwards_step clientId states ev player

/-- Counterexample for C2: after the completing pair (state then server) has
forwarded once, re-delivering the identical server event — which leaves both
stored fragments unchanged — forwards a second time: two forwards for one
distinct complete pair. -/
theorem forward_once_counterexample :
    countForwards (processEvents "bot" emptyStates
      [(DiscordVoiceEvent.voiceStateUpdate "g" "bot" "s" (some "c"),
        some ⟨"g", some "c", "n1"⟩),
       (DiscordVoiceEvent.voiceServerUpdate "g" "t" "e",
        some ⟨"g", some "c", "n1"⟩)]).2 = 1 ∧
    lookupState (processEvents "bot" emptyStates
      [(DiscordVoiceEvent.voiceStateUpdate "g" "bot" "s" (some "c"),
        some ⟨"g", some "c", "n1"⟩),
       (DiscordVoiceEvent.voiceServerUpdate "g" "t" "e",
        some ⟨"g", some "c", "n1"⟩)]).1 "g" =
    lookupState (processEvents "bot" emptyStates
      [(DiscordVoiceEvent.voiceStateUpdate "g" "bot" "s" (some "c"),
        some ⟨"g", some "c", "n1"⟩),
       (DiscordVoiceEvent.voiceServerUpdate "g" "t" "e",
        some ⟨"g", some "c", "n1"⟩),
       (DiscordVoiceEvent.voiceServerUpdate "g" "t" "e",
        some ⟨"g", some "c", "n1"⟩)]).1 "g" ∧
    countForwards (processEvents "bot" emptyStates
      [(DiscordVoiceEvent.voiceStateUpdate "g" "bot" "s" (some "c"),
        some ⟨"g", some "c", "n1"⟩),
       (DiscordVoiceEvent.voiceServerUpdate "g" "t" "e",
        some ⟨"g", some "c", "n1"⟩),
       (DiscordVoiceEvent.voiceServerUpdate "g" "t" "e",
        some ⟨"g", some "c", "n1"⟩)]).2 = 2 := by
  refine ⟨by decide, by decide, by decide⟩

/-- A forwarded effect in a list makes its forward count positive. -/
theorem countForwards_pos_of_mem {gg : String} {v : VoiceState}
    {l : List Effect} (h : Effect.forwarded gg v ∈ l) :
    0 < countForwards l :=
  List.countP_pos_iff.mpr ⟨_, h, rfl⟩

/-- An event for a guild with no stored connection cannot satisfy the forward
condition: its own fragment alone is not a complete credential. -/
theorem forwardCondition_entry_missing (clientId : String)
    (states : VoiceStates) (ev : DiscordVoiceEvent) (player : Option Player)
    (hmiss : lookupState states (eventGuild ev) = none) :
    ¬ forwardCondition clientId states ev player := by
  cases ev with
  | voiceServerUpdate g t e =>
    rcases player with _ | p
    · intro h
      exact h
    · intro h
      have hgc : getOrCreate states g none =
          { guildId := g, channelId := none } := by
        unfold getOrCreate
        rw [show lookupState states g = none from hmiss]
      rcases h with ⟨h1, _, _⟩
      rw [hgc] at h1
      exact Bool.noConfusion h1
  | voiceStateUpdate g u s c =>
    rcases player with _ | p
    · intro h
      exact h
    · intro h
      have hgc : getOrCreate states g c = { guildId := g, channelId := c } := by
        unfold getOrCreate
        rw [show lookupState states g = none from hmiss]
      rcases h with ⟨_, _, h3, _, _⟩
      rw [hgc] at h3
      exact Bool.noConfusion h3

/-- Claim C5: a VOICE_STATE_UPDATE for the bot whose channel is empty/absent
deletes the guild's stored voice state, requests teardown
(`player.disconnect()` when a player is given), forwards nothing for that
event, and — the complementary fragment having been discarded — the next
event for that guild cannot forward either. -/
theorem empty_channel_teardown (clientId : String) (states : VoiceStates)
    (g s : String) (c : Option String) (player : Option Player)
    (hc : truthy c = false) :
    lookupState (handleVoiceUpdate clientId states
      (DiscordVoiceEvent.voiceStateUpdate g clientId s c) player).1 g = none ∧
    (∀ p, player = some p → Effect.disconnected p.guildId ∈
      (handleVoiceUpdate clientId states
        (DiscordVoiceEvent.voiceStateUpdate g clientId s c) player).2) ∧
    (∀ gg v, Effect.forwarded gg v ∉
      (handleVoiceUpdate clientId states
        (DiscordVoiceEvent.voiceStateUpdate g clientId s c) player).2) ∧
    (∀ ev' p', eventGuild ev' = g →
      ∀ gg v, Effect.forwarded gg v ∉
        (handleVoiceUpdate clientId
          (handleVoiceUpdate clientId states
            (DiscordVoiceEvent.voiceStateUpdate g clientId s c) player).1
          ev' p').2) := by
  have hcb : (!truthy c) = true := by
    rw [hc]
    rfl
  have hnofwd : ∀ (m : VoiceStates), lookupState m g = none →
      ∀ ev' p', eventGuild ev' = g →
      ∀ gg v, Effect.forwarded gg v ∉ (handleVoiceUpdate clientId m ev' p').2 := by
    intro m hm ev' p' hg gg v hv
    have hstep := countForwards_step clientId m ev' p'
    have hpos := countForwards_pos_of_mem hv
    have h1 : countForwards (handleVoiceUpdate clientId m ev' p').2 = 1 := by
      omega
    exact forwardCondition_entry_missing clientId m ev' p'
      (by rw [hg]; exact hm) (hstep.2.mp h1)
  rcases player with _ | p
  · have heq : handleVoiceUpdate clientId states
        (DiscordVoiceEvent.voiceStateUpdate g clientId s c) none =
        (deleteState (setState states g
          { getOrCreate states g c with sessionId := some s, channelId := c }) g,
         [Effect.debug ("Voice state update for guild " ++ g)]) := by
      simp only [handleVoiceUpdate, handleVoiceStateUpdate]
      rw [if_neg (not_not_intro rfl), if_pos hcb]
      simp
    rw [heq]
    have hmiss : lookupState (deleteState (setState states g
        { getOrCreate states g c with sessionId := some s, channelId := c }) g)
        g = none := by
      rw [lookup_deleteState, if_pos rfl]
    refine ⟨hmiss, ?_, ?_, ?_⟩
    · intro p hp
      exact Option.noConfusion hp
    · intro gg v hv
      simp at hv
    · intro ev' p' hg gg v hv
      exact hnofwd _ hmiss ev' p' hg gg v hv
  · have heq : handleVoiceUpdate clientId states
        (DiscordVoiceEvent.voiceStateUpdate g clientId s c) (some p) =
        (deleteState (setState states g
          { getOrCreate states g c with sessionId := some s, channelId := c }) g,
         [Effect.debug ("Voice state update for guild " ++ g),
          Effect.disconnected p.guildId]) := by
      simp only [handleVoiceUpdate, handleVoiceStateUpdate]
      rw [if_neg (not_not_intro rfl), if_pos hcb]
      simp
    rw [heq]
    have hmiss : lookupState (deleteState (setState states g
        { getOrCreate states g c with sessionId := some s, channelId := c }) g)
        g = none := by
      rw [lookup_deleteState, if_pos rfl]
    refine ⟨hmiss, ?_, ?_, ?_⟩
    · intro q hq
      injection hq with hq
      rw [← hq]
      simp
    · intro gg v hv
      simp at hv
    · intro ev' p' hg gg v hv
      exact hnofwd _ hmiss ev' p' hg gg v hv

/-- Witness for C5: a concrete empty-channel update for the bot deletes the
entry, disconnects the player and forwards nothing, now or on the next event
for that guild. -/
theorem empty_channel_teardown_witness :
    lookupState (handleVoiceUpdate "bot" emptyStates
      (DiscordVoiceEvent.voiceStateUpdate "g" "bot" "s" none)
      (some ⟨"g", some "c", "n1"⟩)).1 "g" = none ∧
    (∀ p, (some (⟨"g", some "c", "n1"⟩ : Player)) = some p →
      Effect.disconnected p.guildId ∈
        (handleVoiceUpdate "bot" emptyStates
          (DiscordVoiceEvent.voiceStateUpdate "g" "bot" "s" none)
          (some ⟨"g", some "c", "n1"⟩)).2) ∧
    (∀ gg v, Effect.forwarded gg v ∉
      (handleVoiceUpdate "bot" emptyStates
        (DiscordVoiceEvent.voiceStateUpdate "g" "bot" "s" none)
        (some ⟨"g", some "c", "n1"⟩)).2) ∧
    (∀ ev' p', eventGuild ev' = "g" →
      ∀ gg v, Effect.forwarded gg v ∉
        (handleVoiceUpdate "bot"
          (handleVoiceUpdate "bot" emptyStates
            (DiscordVoiceEvent.voiceStateUpdate "g" "bot" "s" none)
            (some ⟨"g", some "c", "n1"⟩)).1
          ev' p').2) :=
  empty_channel_teardown "bot" emptyStates "g" "s" none
    (some ⟨"g", some "c", "n1"⟩) rfl

/-- Claim C6 (amended): for a VOICE_STATE_UPDATE of the bot with a truthy
channel and a player present, a `playerMove` notification — carrying the old
(`player.voiceChannelId`) and new channel — is emitted iff the channel
differs from `player.voiceChannelId` (a change of the assigned node alone
does not trigger it), and no move notification ever follows a credential
forward within the event's effects (the move precedes the forward). -/
theorem playerMove_on_channel_change (clientId : String) (states : VoiceStates)
    (g s : String) (c : Option String) (p : Player)
    (hch : truthy c = true) :
    (hasPlayerMove (handleVoiceUpdate clientId states
        (DiscordVoiceEvent.voiceStateUpdate g clientId s c) (some p)).2 = true ↔
      p.voiceChannelId ≠ c) ∧
    (p.voiceChannelId ≠ c →
      Effect.playerMove p p.voiceChannelId c ∈
        (handleVoiceUpdate clientId states
          (DiscordVoiceEvent.voiceStateUpdate g clientId s c) (some p)).2) ∧
    noMoveAfterForward (handleVoiceUpdate clientId states
        (DiscordVoiceEvent.voiceStateUpdate g clientId s c) (some p)).2 = true := by
  have hcb : ¬ ((!truthy c) = true) := by
    rw [hch]
    simp
  have heq : (handleVoiceUpdate clientId states
      (DiscordVoiceEvent.voiceStateUpdate g clientId s c) (some p)).2 =
      [Effect.debug ("Voice state update for guild " ++ g)] ++
        (if p.voiceChannelId ≠ c then
          [Effect.playerMove p p.voiceChannelId c]
        else []) ++
        (if truthy (getOrCreate states g c).token &&
            truthy (getOrCreate states g c).endpoint then
          forwardVoiceState p
            { getOrCreate states g c with
                sessionId := some s, channelId := c }
        else []) := by
    simp only [handleVoiceUpdate, handleVoiceStateUpdate]
    rw [if_neg (not_not_intro rfl), if_neg hcb]
  have hfwdshape : (if truthy (getOrCreate states g c).token &&
      truthy (getOrCreate states g c).endpoint then
        forwardVoiceState p
          { getOrCreate states g c with
              sessionId := some s, channelId := c }
      else []) = [] ∨
      (if truthy (getOrCreate states g c).token &&
          truthy (getOrCreate states g c).endpoint then
        forwardVoiceState p
          { getOrCreate states g c with
              sessionId := some s, channelId := c }
      else []) = [Effect.incompleteError] ∨
      ∃ gg v m, (if truthy (getOrCreate states g c).token &&
          truthy (getOrCreate states g c).endpoint then
        forwardVoiceState p
          { getOrCreate states g c with
              sessionId := some s, channelId := c }
      else []) = [Effect.forwarded gg v, Effect.debug m] := by
    by_cases hgate : (truthy (getOrCreate states g c).token &&
        truthy (getOrCreate states g c).endpoint) = true
    · rw [if_pos hgate]
      unfold forwardVoiceState
      by_cases hg2 : (!truthy ({ getOrCreate states g c with
          sessionId := some s, channelId := c } : VoiceConnection).sessionId ||
          !truthy ({ getOrCreate states g c with
            sessionId := some s, channelId := c } : VoiceConnection).token ||
          !truthy ({ getOrCreate states g c with
            sessionId := some s, channelId := c } : VoiceConnection).endpoint) = true
      · rw [if_pos hg2]
        exact Or.inr (Or.inl rfl)
      · rw [if_neg hg2]
        exact Or.inr (Or.inr ⟨_, _, _, rfl⟩)
    · rw [if_neg hgate]
      exact Or.inl rfl
  rw [heq]
  rcases hfwdshape with hf | hf | ⟨gg, v, m, hf⟩ <;> rw [hf] <;>
    by_cases hmv : p.voiceChannelId ≠ c
  · rw [if_pos hmv]
    refine ⟨⟨fun _ => hmv, fun _ => by simp [hasPlayerMove, isPlayerMove]⟩,
      fun _ => by simp, ?_⟩
    simp [noMoveAfterForward, isForwarded, isPlayerMove]
  · rw [if_neg hmv]
    refine ⟨⟨fun hx => ?_, fun hx => absurd hx hmv⟩,
      fun hx => absurd hx hmv, ?_⟩
    · rw [show hasPlayerMove
          ([Effect.debug ("Voice state update for guild " ++ g)] ++ [] ++ []) =
          false from by simp [hasPlayerMove, isPlayerMove]] at hx
      exact Bool.noConfusion hx
    · simp [noMoveAfterForward, isForwarded, isPlayerMove]
  · rw [if_pos hmv]
    refine ⟨⟨fun _ => hmv, fun _ => by simp [hasPlayerMove, isPlayerMove]⟩,
      fun _ => by simp, ?_⟩
    simp [noMoveAfterForward, isForwarded, isPlayerMove]
  · rw [if_neg hmv]
    refine ⟨⟨fun hx => ?_, fun hx => absurd hx hmv⟩,
      fun hx => absurd hx hmv, ?_⟩
    · rw [show hasPlayerMove
          ([Effect.debug ("Voice state update for guild " ++ g)] ++ [] ++
            [Effect.incompleteError]) =
          false from by simp [hasPlayerMove, isPlayerMove]] at hx
      exact Bool.noConfusion hx
    · simp [noMoveAfterForward, isForwarded, isPlayerMove]
  · rw [if_pos hmv]
    refine ⟨⟨fun _ => hmv, fun _ => by simp [hasPlayerMove, isPlayerMove]⟩,
      fun _ => by simp, ?_⟩
    simp [noMoveAfterForward, isForwarded, isPlayerMove, List.all_cons]
  · rw [if_neg hmv]
    refine ⟨⟨fun hx => ?_, fun hx => absurd hx hmv⟩,
      fun hx => absurd hx hmv, ?_⟩
    · rw [show hasPlayerMove
          ([Effect.debug ("Voice state update for guild " ++ g)] ++ [] ++
            [Effect.forwarded gg v, Effect.debug m]) =
          false from by simp [hasPlayerMove, isPlayerMove]] at hx
      exact Bool.noConfusion hx
    · simp [noMoveAfterForward, isForwarded, isPlayerMove, List.all_cons]

/-- Counterexample for C6: after a complete credential is in place, a second
bot VOICE_STATE_UPDATE with the same channel but processed for a player whose
assigned node changed (`n2` instead of `n1`) forwards the credential without
emitting any `playerMove` — the code never compares nodes. -/
theorem playerMove_counterexample :
    (⟨"g", some "c", "n2"⟩ : Player).nodeId ≠
      (⟨"g", some "c", "n1"⟩ : Player).nodeId ∧
    hasPlayerMove (handleVoiceUpdate "bot"
      (processEvents "bot" emptyStates
        [(DiscordVoiceEvent.voiceStateUpdate "g" "bot" "s" (some "c"),
          some ⟨"g", some "c", "n1"⟩),
         (DiscordVoiceEvent.voiceServerUpdate "g" "t" "e",
          some ⟨"g", some "c", "n1"⟩)]).1
      (DiscordVoiceEvent.voiceStateUpdate "g" "bot" "s" (some "c"))
      (some ⟨"g", some "c", "n2"⟩)).2 = false ∧
    countForwards (handleVoiceUpdate "bot"
      (processEvents "bot" emptyStates
        [(DiscordVoiceEvent.voiceStateUpdate "g" "bot" "s" (some "c"),
          some ⟨"g", some "c", "n1"⟩),
         (DiscordVoiceEvent.voiceServerUpdate "g" "t" "e",
          some ⟨"g", some "c", "n1"⟩)]).1
      (DiscordVoiceEvent.voiceStateUpdate "g" "bot" "s" (some "c"))
      (some ⟨"g", some "c", "n2"⟩)).2 = 1 := by
  refine ⟨by decide, by decide, by decide⟩

/-- Witness for C6 (amended): with a truthy channel differing from the
player's previous channel, a `playerMove` with the old and new channel is
emitted before any forward. -/
theorem playerMove_on_channel_change_witness :
    (hasPlayerMove (handleVoiceUpdate "bot" emptyStates
        (DiscordVoiceEvent.voiceStateUpdate "g" "bot" "s" (some "new"))
        (some ⟨"g", some "old", "n1"⟩)).2 = true ↔
      (⟨"g", some "old", "n1"⟩ : Player).voiceChannelId ≠ some "new") ∧
    ((⟨"g", some "old", "n1"⟩ : Player).voiceChannelId ≠ some "new" →
      Effect.playerMove ⟨"g", some "old", "n1"⟩
          (⟨"g", some "old", "n1"⟩ : Player).voiceChannelId (some "new") ∈
        (handleVoiceUpdate "bot" emptyStates
          (DiscordVoiceEvent.voiceStateUpdate "g" "bot" "s" (some "new"))
          (some ⟨"g", some "old", "n1"⟩)).2) ∧
    noMoveAfterForward (handleVoiceUpdate "bot" emptyStates
        (DiscordVoiceEvent.voiceStateUpdate "g" "bot" "s" (some "new"))
        (some ⟨"g", some "old", "n1"⟩)).2 = true :=
  playerMove_on_channel_change "bot" emptyStates "g" "s" (some "new")
    ⟨"g", some "old", "n1"⟩ (by decide)

end Lavacore
